import Mathlib

/-!
Verification development for the tts-hub media-studio service.

The definitions below are shallow embeddings of functions from
`src/backend/app.py` and `src/backend/favorites_store.py`:

* audio buffers are modelled as Lean lists (`List ℚ` for the purely
  structural primitives, `List ℝ` for the limiter, which applies `tanh`);
* Python `int(...)` truncation, `list[a:b]` slicing and `x or d`
  defaulting are modelled by explicit helper functions;
* calls that leave the process (ffmpeg/librosa stretching, the librosa
  trim analysis) are abstracted as function parameters, and each theorem
  quantifies over them, so the theorems hold for every behaviour of the
  external tool;
* the filesystem, where an operation consults it, is modelled as the list
  of existing paths, threaded explicitly.

Each claim from the specification is settled by one theorem near the end
of the file.
-/

namespace TtsHub

/-- Python `int(q)` on a numeric value: truncation toward zero. -/
def pyInt (q : ℚ) : ℤ := if q < 0 then ⌈q⌉ else ⌊q⌋

/-- Python `a or b` on an optional string: the first truthy (present and
non-empty) value. -/
def pyOrStr (a : Option String) (b : String) : String :=
  match a with
  | some s => if s == "" then b else s
  | none => b

/-- Python `a or b` on an optional number: the first truthy (present and
non-zero) value. -/
def pyOrQ (a : Option ℚ) (b : ℚ) : ℚ :=
  match a with
  | some q => if q == 0 then b else q
  | none => b

/-- Lower-casing as a map over code points (kernel-computable model of
`str.lower()`; the identifiers of this service are ASCII). -/
def strLower (s : String) : String := String.mk (s.data.map Char.toLower)

/-- Whitespace stripping from both ends (kernel-computable model of
`str.strip()`). -/
def strTrim (s : String) : String :=
  String.mk (((s.data.dropWhile Char.isWhitespace).reverse.dropWhile Char.isWhitespace).reverse)

/-- String prefix test over code points. -/
def strStartsWith (p s : String) : Bool := p.data.isPrefixOf s.data

/-- Membership of a character in a string (`c in s`). -/
def strContainsChar (s : String) (c : Char) : Bool := s.data.contains c

/-- Split a character list on a separator character. -/
def splitOnCharAux (c : Char) : List Char → List Char → List (List Char)
  | [], cur => [cur.reverse]
  | x :: xs, cur =>
      if x == c then cur.reverse :: splitOnCharAux c xs []
      else splitOnCharAux c xs (x :: cur)

/-- `str.split(sep)` for a one-character separator. -/
def strSplitOnChar (c : Char) (s : String) : List String :=
  (splitOnCharAux c s.data []).map String.mk

/-- Strip the character `c` from both ends of a character list, as Python
`str.strip(c)` does. -/
def stripBoth (c : Char) (l : List Char) : List Char :=
  ((l.dropWhile (· == c)).reverse.dropWhile (· == c)).reverse

/-- Normalise one bound of a Python slice `xs[a:b]` for a list of length
`n`: negative indices count from the end, and both ends are clamped into
`[0, n]`. -/
def pySliceClamp (n : ℕ) (i : ℤ) : ℕ :=
  (if i < 0 then max ((n : ℤ) + i) 0 else min i (n : ℤ)).toNat

/-- Python slice `xs[a:b]` (step 1) on a list. -/
def pySlice (xs : List ℚ) (a b : ℤ) : List ℚ :=
  (xs.drop (pySliceClamp xs.length a)).take (pySliceClamp xs.length b - pySliceClamp xs.length a)

/-! ## `concatenate_clips` (src/backend/app.py, lines 2314–2326) -/

/-- Embedding of `concatenate_clips`: interleave each clip with a silence
gap of `max(int(sample_rate * gap_seconds), 0)` samples, drop the trailing
gap, and concatenate; an empty clip list yields an empty buffer.
(`clip.astype(np.float32)` is the identity in the rational model.) -/
def concatenate_clips (clips : List (List ℚ)) (sample_rate : ℤ) (gap_seconds : ℚ) : List ℚ :=
  let gap_length := (max (pyInt ((sample_rate : ℚ) * gap_seconds)) 0).toNat
  let gap : List ℚ := List.replicate gap_length 0
  let segments := clips.foldl (fun acc clip => acc ++ [clip, gap]) []
  let segments := segments.dropLast
  if segments.isEmpty then [] else segments.flatten

/-! ## `_time_stretch_to_len` (src/backend/app.py, lines 2342–2384) -/

/-- Embedding of `_time_stretch_to_len`.  The ffmpeg `atempo` chain (and
its librosa fallback) runs outside the process; it is abstracted as the
`stretch` parameter, covering every buffer the external tool may return.
The function then forces the result to exactly `target_len` samples by
truncation or zero padding; when the input has at most one sample or the
target is at most one sample it returns `np.zeros(target_len)` directly. -/
def time_stretch_to_len {α : Type} [Zero α] (stretch : List α → List α)
    (samples : List α) (_sr : ℤ) (target_len : ℤ) : List α :=
  if samples.length ≤ 1 ∨ target_len ≤ 1 then List.replicate target_len.toNat 0
  else
    let stretched := stretch samples
    if target_len.toNat < stretched.length then stretched.take target_len.toNat
    else if stretched.length < target_len.toNat then
      stretched ++ List.replicate (target_len.toNat - stretched.length) 0
    else stretched

/-! ## `_trim_silence` (src/backend/app.py, lines 2466–2482) -/

/-- Embedding of `_trim_silence`.  The energy analysis
`librosa.effects.trim(samples, top_db)` runs in an external library; it is
abstracted as `trimOracle`, returning the `(start, end)` index pair or
`none` for the exception / malformed-index path (in which case the whole
buffer is returned, as by the final `astype(float32)` line).  On success the
pair is padded by `int(prepad_ms / 1000 * sr)` / `int(postpad_ms / 1000 * sr)`
samples, clamped, and the buffer is sliced. -/
def trim_silence (trimOracle : List ℚ → ℚ → Option (ℤ × ℤ))
    (samples : List ℚ) (top_db sr prepad_ms postpad_ms : ℚ) : List ℚ :=
  if samples.isEmpty then samples
  else
    match trimOracle samples top_db with
    | some (i0, i1) =>
        let start := max 0 (i0 - pyInt (prepad_ms / 1000 * sr))
        let stop := min (samples.length : ℤ) (i1 + pyInt (postpad_ms / 1000 * sr))
        pySlice samples start stop
    | none => samples

/-! ## Favorites store (src/backend/favorites_store.py) -/

/-- A stored favorites profile.  Fields that never interact with slug
assignment (language, speed, trimSilence, style, seed, serverUrl, tags,
meta) are elided; `createdAt`/`updatedAt` are carried as opaque strings
supplied by the caller in place of `_now_iso()`. -/
structure Profile where
  id : String
  label : String
  engine : String
  voiceId : String
  slug : String
  createdAt : String
  updatedAt : String
deriving DecidableEq, Repr

/-- Embedding of `favorites_store._slugify`: lower-case, keep
alphanumerics, map space/hyphen/underscore to `-`, drop everything else,
strip `-` from both ends, and fall back to the lower-cased input when the
result is empty. -/
def favorites_slugify (value : String) : String :=
  let s := (strLower value).data.filterMap (fun ch =>
    if ch.isAlphanum then some ch
    else if ch == ' ' || ch == '-' || ch == '_' then some '-'
    else none)
  let slug := String.mk (stripBoth '-' s)
  if slug == "" then strLower value else slug

/-- The `while candidate and candidate in existing_slugs` loop of
`FavoritesStore._unique_slug`, with explicit fuel.  The candidates
`base`, `base-2`, `base-3`, … are pairwise distinct, so
`slugs.length + 1` iterations always suffice to leave the set. -/
def unique_slug_loop (base : String) (slugs : List String) :
    String → ℕ → ℕ → String
  | candidate, _, 0 => candidate
  | candidate, suffix, fuel + 1 =>
      if candidate ≠ "" ∧ candidate ∈ slugs then
        unique_slug_loop base slugs (base ++ "-" ++ toString (suffix + 1)) (suffix + 1) fuel
      else candidate

/-- Embedding of `FavoritesStore._unique_slug`: slugify the proposal and
append an increasing numeric suffix until the candidate leaves the set of
slugs of the existing profiles (profiles with an empty slug, or with the
excluded id, do not count). -/
def unique_slug (slug : String) (existing : List Profile) (exclude_id : Option String) : String :=
  let base := favorites_slugify slug
  let existing_slugs :=
    (existing.filter (fun p => p.slug ≠ "" && exclude_id.all (fun i => p.id ≠ i))).map (·.slug)
  unique_slug_loop base existing_slugs base 1 (existing_slugs.length + 1)

/-- Embedding of `FavoritesStore.create`.  `pid` stands for
`payload.get("id") or f"fav_{uuid4...}"` and `now` for `_now_iso()`.
Returns `none` when a required field (label, engine, voiceId) is falsy,
as the `ValueError` path.  The proposed slug is
`payload.get("slug") or _slugify(label)[:60]`, made unique *after* the
60-character truncation. -/
def favorites_create (profiles : List Profile) (pid label engine voiceId : String)
    (payload_slug : Option String) (now : String) : Option (List Profile) :=
  if label == "" || engine == "" || voiceId == "" then none
  else
    let slug0 := match payload_slug with
      | some s => if s == "" then (favorites_slugify label).take 60 else s
      | none => (favorites_slugify label).take 60
    let slug := unique_slug slug0 profiles none
    some (profiles ++ [{ id := pid, label := strTrim label, engine := strTrim (strLower engine),
                         voiceId := strTrim voiceId, slug := slug,
                         createdAt := now, updatedAt := now }])

/-- Embedding of the slug-relevant part of `FavoritesStore.update`:
locate the profile by id (`none` when absent); when the patch carries a
truthy slug, assign
`self._unique_slug(str(patch["slug"]), profiles, exclude_id=found["id"])[:60]`
— note that the 60-character truncation is applied *after* uniquification.
Patched fields other than the slug do not interact with slugs and are
elided. -/
def favorites_update (profiles : List Profile) (profile_id : String)
    (patch_slug : Option String) (now : String) : Option (List Profile) :=
  match profiles.findIdx? (fun p => p.id == profile_id) with
  | none => none
  | some i =>
      match profiles[i]? with
      | none => none
      | some found =>
          let newSlug := match patch_slug with
            | some s => if s ≠ "" then (unique_slug s profiles (some found.id)).take 60
                        else found.slug
            | none => found.slug
          some (profiles.set i { found with slug := newSlug, updatedAt := now })

/-! ## Preview cache (src/backend/app.py, lines 824–951) -/

/-- Embedding of `_preview_key`: `f"{voice_id}-{language}-v1"`. -/
def preview_key (voice_id language : String) : String :=
  voice_id ++ "-" ++ language ++ "-" ++ "v1"

/-- Embedding of `_preview_path`: `PREVIEW_DIR / engine / f"{key}.wav"`,
with the preview directory carried as a parameter. -/
def preview_path (preview_dir engine voice_id language : String) : String :=
  preview_dir ++ "/" ++ engine ++ "/" ++ preview_key voice_id language ++ ".wav"

/-- Embedding of `_preview_language_key`: falsy language gives the
fallback, otherwise the stripped lower-cased value (or the fallback if
that is empty). -/
def preview_language_key (language : Option String) (fallback : String) : String :=
  match language with
  | none => fallback
  | some l =>
      if l == "" then fallback
      else
        let value := strLower (strTrim l)
        if value == "" then fallback else value

/-- Result of a preview-cache call: the returned path, the filesystem
after the call, and whether the synthesis engine was invoked. -/
structure PreviewCall where
  path : String
  fs : List String
  synthesised : Bool
deriving DecidableEq, Repr

/-- Embedding of `_get_or_create_kokoro_preview` over a filesystem `fs`
(the list of existing files).  If the deterministic preview path already
exists and `force` is not set, the path is returned without synthesising;
otherwise the synthesis-and-write tail (`get_tts() … sf.write(path, …)`)
is modelled by its effect: the file at `path` now exists and synthesis
was invoked. -/
def get_or_create_kokoro_preview (preview_dir : String) (fs : List String)
    (voice_id : String) (language : Option String) (force : Bool) : PreviewCall :=
  let lang_value := pyOrStr language "en-us"
  let lang_key := preview_language_key (some lang_value) "en-us"
  let path := preview_path preview_dir "kokoro" voice_id lang_key
  if fs.contains path && !force then ⟨path, fs, false⟩
  else ⟨path, path :: fs, true⟩

/-! ## XTTS voice resolution (src/backend/app.py, lines 68, 1081–1089, 1306–1317, 3193–3225) -/

/-- `XTTS_SUPPORTED_EXTENSIONS = {".wav", ".mp3", ".flac", ".ogg"}`. -/
def XTTS_SUPPORTED_EXTENSIONS : List String := [".wav", ".mp3", ".flac", ".ogg"]

/-- Embedding of `_slugify_voice_id`: lower-case, keep alphanumerics, map
space/hyphen/underscore to `_`, drop everything else, strip `_` from both
ends, falling back to the lower-cased input when empty. -/
def slugify_voice_id (name : String) : String :=
  let s := (strLower name).data.filterMap (fun ch =>
    if ch.isAlphanum then some ch
    else if ch == ' ' || ch == '-' || ch == '_' then some '_'
    else none)
  let slug := String.mk (stripBoth '_' s)
  if slug == "" then strLower name else slug

/-- `Path(p).expanduser()` for the common forms: a leading `~/` (or a bare
`~`) is replaced by the home directory; other paths are unchanged.
(The `~user` form does not occur in this service.) -/
def expanduser (home p : String) : String :=
  if p == "~" then home
  else if strStartsWith "~/" p then home ++ p.drop 1
  else p

/-- The final path component, as `PurePath.name`. -/
def pathName (p : String) : String := (strSplitOnChar '/' p).getLastD ""

/-- `Path(p).stem`: the final component without its last suffix; a name
whose only dot is the leading one keeps it (e.g. `.bashrc`). -/
def pathStem (p : String) : String :=
  let name := pathName p
  let parts := strSplitOnChar '.' name
  if parts.length ≤ 1 then name
  else if parts.headD "" == "" && parts.length == 2 then name
  else String.intercalate "." parts.dropLast

/-- `Path(p).suffix`: the last extension of the final component including
the dot, empty when there is none (or when the only dot is leading). -/
def pathSuffix (p : String) : String :=
  let name := pathName p
  let parts := strSplitOnChar '.' name
  if parts.length ≤ 1 then ""
  else if parts.headD "" == "" && parts.length == 2 then ""
  else "." ++ parts.getLastD ""

/-- `Path.relative_to` succeeds for canonical absolute paths exactly when
`dir` is the path itself or a proper ancestor. -/
def path_is_inside (p dir : String) : Bool :=
  p == dir || strStartsWith (dir ++ "/") p

/-- First value of an association list under a string key. -/
def assocFind (m : List (String × String)) (k : String) : Option String :=
  (m.find? (fun e => e.1 == k)).map (·.2)

/-- Embedding of `_resolve_xtts_voice_path`.  `voice_map` is the mapping
built by `get_xtts_voice_map` (voice id → reference path), `fs` the
filesystem-existence oracle, `home` the home directory for `~` expansion.
The identifier is looked up lower-cased-and-stripped, then as its slug;
otherwise it is treated as a filesystem path, and *any* existing path is
accepted.  Unknown identifiers raise status 400. -/
def resolve_xtts_voice_path (voice_map : List (String × String))
    (fs : String → Bool) (home : String) (identifier : String) :
    Except ℕ (String × String) :=
  let key := strTrim (strLower identifier)
  match assocFind voice_map key with
  | some p => .ok (key, p)
  | none =>
      let slug := slugify_voice_id identifier
      match assocFind voice_map slug with
      | some p => .ok (slug, p)
      | none =>
          let candidate := expanduser home identifier
          if fs candidate then .ok (slugify_voice_id (pathStem candidate), candidate)
          else .error 400

/-- The `looks_path` heuristic of `media_replace_preview_endpoint`: the
expanded candidate is absolute, or the raw value contains the path
separator, or the candidate's suffix is a supported audio extension. -/
def looks_like_path (home ev : String) : Bool :=
  let cand := expanduser home ev
  strStartsWith "/" cand || strContainsChar ev '/' ||
    XTTS_SUPPORTED_EXTENSIONS.contains (strLower (pathSuffix cand))

/-- Embedding of the explicit-voice validation in
`media_replace_preview_endpoint` (lines 3193–3225): a value that looks
like a path is resolved and must lie inside the current job folder or the
XTTS voices directory (status 400 otherwise), and must exist (status 400
otherwise); a non-path value is passed through as a voice identifier for
the XTTS resolver.  `resolve()` is the identity on the canonical paths of
this model. -/
def media_replace_voice_check (job_dir voice_dir : String)
    (fs : String → Bool) (home : String) (ev : String) : Except ℕ String :=
  let cand := expanduser home ev
  if looks_like_path home ev then
    let real := cand
    if path_is_inside real job_dir || path_is_inside real voice_dir then
      if fs real then .ok real else .error 400
    else .error 400
  else .ok ev

/-! ## Region alignment merge (src/backend/app.py, lines 231–250, 2763–2859) -/

/-- A word of the stored transcript as the merge loop reads it: Python
dictionaries may carry `text` or `word` (possibly empty), may lack the
`start`/`end` keys, and may carry `confidence` or `score`.  Timing values
are numbers when present (as written by this service's own transcript
writers). -/
structure PyWord where
  textF : Option String
  wordF : Option String
  hasStart : Bool
  startV : ℚ
  hasEnd : Bool
  endV : ℚ
  confF : Option ℚ
  scoreF : Option ℚ
deriving DecidableEq, Repr

/-- A fully-formed merged word `{text, start, end, confidence}`. -/
structure Word where
  text : String
  start : ℚ
  stop : ℚ
  confidence : ℚ
deriving DecidableEq, Repr

/-- `float(w.get("start") or 0)` and `float(w.get("start", 0))` coincide
on numeric values: the stored number when the key is present, else 0
(`v or 0` is `v` for every number `v`, including `0`). -/
def pyGetStart (w : PyWord) : ℚ := if w.hasStart then w.startV else 0

/-- `float(w.get("end") or 0)` / `float(w.get("end", 0))`; see
`pyGetStart`. -/
def pyGetEnd (w : PyWord) : ℚ := if w.hasEnd then w.endV else 0

/-- `_is_timed_word`: the dictionary has both a `start` and an `end`
key. -/
def is_timed_word (w : PyWord) : Bool := w.hasStart && w.hasEnd

/-- The overlap test of the merge loop:
`float(w.get("end", 0)) > region_start and float(w.get("start", 0)) < region_end`. -/
def overlaps_region (region_start region_end : ℚ) (w : PyWord) : Bool :=
  decide (pyGetEnd w > region_start) && decide (pyGetStart w < region_end)

/-- The kept-word record built for an original word that survives the
merge: `{text: str(text or word or "").strip(), start, end,
confidence: float(confidence or score or 0)}`. -/
def keptWord (w : PyWord) : Word :=
  { text := strTrim (pyOrStr w.textF (pyOrStr w.wordF ""))
    start := pyGetStart w
    stop := pyGetEnd w
    confidence := pyOrQ w.confF (pyOrQ w.scoreF 0) }

/-- Embedding of the merge step of `media_align_region_endpoint`
(lines 2821–2836): keep the timed original words that do not overlap
`[region_start, region_end]`, append all newly aligned words, and sort by
start time (`merged.sort(key=...)`, a stable merge sort). -/
def merge_region_words (region_start region_end : ℚ)
    (existing : List PyWord) (new_words : List Word) : List Word :=
  let kept := existing.filterMap (fun w =>
    if is_timed_word w then
      if !overlaps_region region_start region_end w then some (keptWord w) else none
    else none)
  (kept ++ new_words).mergeSort (fun a b => decide (a.start ≤ b.start))

/-- The windowed `compared` count of `_alignment_diff_stats`: both word
lists are restricted to the words overlapping the window, and
`min(len(prev), len(new))` index pairs are compared.  (The aggregate
delta statistics derived from those pairs are not needed by any claim and
are not modelled.) -/
def alignment_diff_compared (prev_words new_words : List Word)
    (window : Option (ℚ × ℚ)) : ℕ :=
  match window with
  | some (ws, we) =>
      let inWin := fun (w : Word) => decide (w.stop > ws) && decide (w.start < we)
      min (prev_words.filter inWin).length (new_words.filter inWin).length
  | none => min prev_words.length new_words.length

/-- The local names assigned anywhere in the body of
`media_align_region_endpoint` (transcribed assignment statement by
assignment statement, lines 2724–2859).  CPython decides local versus
global at compile time from this set: a name read in the body that never
appears as an assignment target is compiled as a global load. -/
def media_align_region_assigned_names : List String :=
  ["payload", "job_id", "start", "end", "margin", "margin_s", "job_dir",
   "audio_wav", "tx_path", "transcript", "duration", "region_start",
   "region_end", "words", "_is_timed_word", "region_words", "words_txt",
   "region_text", "segs", "region_segs", "region_wav", "cmd", "wx_result",
   "align_model", "metadata", "t0", "aligned", "exc", "elapsed",
   "new_words", "seg", "w", "abs_start", "abs_end", "existing", "kept",
   "merged", "f", "rel_audio", "diff"]

/-- Embedding of the tail of `media_align_region_endpoint` after the
aligner has produced `new_words`: merge into the transcript, then build
the response, whose `stats.diff` field evaluates
`_alignment_diff_stats(prev_words, transcript.get("words") or [],
window=(region_start, region_end))` (line 2851).  `prev_words` is not
among the function's assignment targets, so CPython resolves it against
the module globals, modelled by `globalsEnv`; when absent there the line
raises `NameError` and the endpoint fails instead of returning. -/
def media_align_region_finish (globalsEnv : List (String × List Word))
    (existing : List PyWord) (region_start region_end : ℚ)
    (new_words : List Word) : Except String (List Word × ℕ) :=
  let merged := merge_region_words region_start region_end existing new_words
  if media_align_region_assigned_names.contains "prev_words" then
    -- unreachable: were the name local it would be unbound at line 2851
    .error "UnboundLocalError: prev_words"
  else
    match (globalsEnv.find? (fun e => e.1 == "prev_words")).map (·.2) with
    | some prev_words =>
        .ok (merged, alignment_diff_compared prev_words merged (some (region_start, region_end)))
    | none => .error "NameError: name prev_words is not defined"

/-! ## Crossfade splice and limiter (src/backend/app.py, lines 2392–2463)

The limiter applies `np.tanh`, so this part of the model lives over `ℝ`
with `Real.tanh`; the definitions are `noncomputable` for that reason. -/

/-- `float(np.max(np.abs(x)))` for a non-empty buffer, `0` for the empty
buffer (`np.max` raises there; every call site guards or swallows it). -/
def listPeak (x : List ℝ) : ℝ := (x.map (fun v => |v|)).foldr max 0

/-- Embedding of `_soft_limit` (lines 2446–2454): an empty buffer and a
buffer whose peak is within the ceiling pass through unchanged; otherwise
every sample is mapped through the normalised tanh saturation
`tanh((x / ceiling) * drive) / tanh(drive) * ceiling`. -/
noncomputable def soft_limit (x : List ℝ) (ceiling drive : ℝ) : List ℝ :=
  if x.isEmpty then x
  else if listPeak x ≤ ceiling then x
  else x.map (fun v => Real.tanh (v / ceiling * drive) / Real.tanh drive * ceiling)

/-- Embedding of the limiting stage closing
`_apply_replace_with_crossfade` (lines 2456–2462): the soft limiter at
its default ceiling `0.98` and drive `2.0`, then the final safety that
rescales to peak `0.98` whenever the peak still exceeds `1.0`.  (For the
empty buffer `np.max` raises and the `except: pass` leaves the buffer
unchanged; the model agrees since `listPeak [] = 0 ≤ 1`.) -/
noncomputable def limit_stage (out : List ℝ) : List ℝ :=
  let out2 := soft_limit out (49 / 50) 2
  let peak2 := listPeak out2
  if 1 < peak2 then out2.map (fun v => v / peak2 * (49 / 50)) else out2

/-- Embedding of `_rms`:
`sqrt(mean(square(x) + 1e-9))`. -/
noncomputable def rms (x : List ℝ) : ℝ :=
  Real.sqrt ((x.map (fun v => v ^ 2 + 1 / 1000000000)).sum / x.length)

/-- The crossfade length of `_apply_replace_with_crossfade`:
`max(int(min(int(fade_ms / 1000.0 * sr), target_len // 4)), 1)`. -/
def spliceFade (sr : ℤ) (fade_ms : ℚ) (target_len : ℕ) : ℕ :=
  (max (min (pyInt (fade_ms / 1000 * (sr : ℚ))) ((target_len : ℤ) / 4)) 1).toNat

/-- Embedding of `_apply_replace_with_crossfade` up to (excluding) the
limiting stage, over `out = source.copy()`:

1. stretch the replacement to `target_len = max(i1 - i0, 1)` when its
   length differs (`stretch` abstracts the external ffmpeg/librosa pass);
2. loudness-match the replacement to the RMS of the ≤0.5 s neighbourhood
   `source[max(0, i0 - sr/2):i0] ++ source[i1:min(len, i1 + sr/2)]`;
3. write the leading crossfade at `i0..i0+fade-1`, the middle
   `i0+fade..i1-fade-1` (when `target_len > 2*fade`), and the trailing
   crossfade at `i1-fade..i1-1`, with the optional ducking branch taken
   exactly when `duck_gain` is set and positive.

Natural-number subtraction stands in for the Python index arithmetic; the
two agree whenever `i0 < i1 ≤ len(source)` (no negative-index wraparound,
see the theorems' hypotheses). -/
noncomputable def splice_pre_limit (stretch : List ℝ → List ℝ) (source rep : List ℝ)
    (sr : ℤ) (i0 i1 : ℕ) (fade_ms : ℚ) (duck_gain : Option ℝ) : List ℝ :=
  let target_len := max (i1 - i0) 1
  let rep1 := if rep.length ≠ target_len then time_stretch_to_len stretch rep sr (target_len : ℤ) else rep
  let half_sr := (pyInt ((sr : ℚ) / 2)).toNat
  let pre := (source.take i0).drop (i0 - half_sr)
  let post := (source.take (min source.length (i1 + half_sr))).drop i1
  let ref := pre ++ post
  let rep2 :=
    if 0 < ref.length then
      if 0 < rms rep1 then rep1.map (fun v => v * (rms ref / rms rep1)) else rep1
    else rep1
  let fade := spliceFade sr fade_ms target_len
  let duck : Option ℝ := match duck_gain with
    | some g => if 0 < g then some g else none
    | none => none
  let out1 := (List.range fade).foldl (fun (acc : List ℝ) (t : ℕ) =>
    let a : ℝ := ((t : ℝ) + 1) / (fade : ℝ)
    let v := match duck with
      | some g => source.getD (i0 + t) 0 * ((1 - a) + a * g) + rep2.getD t 0 * a
      | none => source.getD (i0 + t) 0 * (1 - a) + rep2.getD t 0 * a
    acc.set (i0 + t) v) source
  let out2 :=
    if 2 * fade < target_len then
      (List.range (target_len - 2 * fade)).foldl (fun (acc : List ℝ) (k : ℕ) =>
        let v := match duck with
          | some g => rep2.getD (fade + k) 0 + source.getD (i0 + fade + k) 0 * g
          | none => rep2.getD (fade + k) 0
        acc.set (i0 + fade + k) v) out1
    else out1
  (List.range fade).foldl (fun (acc : List ℝ) (t : ℕ) =>
    let a : ℝ := ((t : ℝ) + 1) / (fade : ℝ)
    let v := match duck with
      | some g =>
          let s := source.getD (i1 - fade + t) 0
          let r := rep2.getD (target_len - fade + t) 0
          r * (1 - a) + s * (g * (1 - a) + a)
      | none => rep2.getD (target_len - fade + t) 0 * (1 - a) + source.getD (i1 - fade + t) 0 * a
    acc.set (i1 - fade + t) v) out2

/-- Embedding of `_apply_replace_with_crossfade`: the crossfade writes
followed by the soft limiter and the final peak safety. -/
noncomputable def apply_replace_with_crossfade (stretch : List ℝ → List ℝ)
    (source rep : List ℝ) (sr : ℤ) (i0 i1 : ℕ) (fade_ms : ℚ)
    (duck_gain : Option ℝ) : List ℝ :=
  limit_stage (splice_pre_limit stretch source rep sr i0 i1 fade_ms duck_gain)

/-! ## Claim theorems -/

/-- C7: for every samples buffer, sample rate and target length `n > 0`,
and every behaviour of the external stretcher, `_time_stretch_to_len`
returns a buffer of exactly `n` samples, including the degenerate cases
where the input has at most one sample or `n` is `1`. -/
theorem C7_time_stretch_exact_length {α : Type} [Zero α]
    (stretch : List α → List α) (samples : List α) (sr target_len : ℤ)
    (h : 0 < target_len) :
    (time_stretch_to_len stretch samples sr target_len).length = target_len.toNat := by
  simp only [time_stretch_to_len]
  split
  · simp
  · split
    · simp only [List.length_take]
      omega
    · split
      · simp only [List.length_append, List.length_replicate]
        omega
      · omega

/-- Witness for C7 at a concrete input. -/
theorem C7_witness :
    0 < (5 : ℤ) ∧
      (time_stretch_to_len (fun l => l) ([1, 2, 3] : List ℚ) 24000 5).length = (5 : ℤ).toNat :=
  ⟨by norm_num, C7_time_stretch_exact_length (fun l => l) [1, 2, 3] 24000 5 (by norm_num)⟩

/-- C10: for every input buffer and every behaviour of the external trim
analysis, `_trim_silence` returns a contiguous sub-slice of its input (a
drop followed by a take — nothing synthesised or reordered), the output
never exceeds the input in length, and the empty input is returned
unchanged. -/
theorem C10_trim_silence_is_subslice (trimOracle : List ℚ → ℚ → Option (ℤ × ℤ))
    (samples : List ℚ) (top_db sr prepad_ms postpad_ms : ℚ) :
    (∃ a m : ℕ,
        trim_silence trimOracle samples top_db sr prepad_ms postpad_ms
          = (samples.drop a).take m) ∧
    (trim_silence trimOracle samples top_db sr prepad_ms postpad_ms).length ≤ samples.length ∧
    (samples = [] → trim_silence trimOracle samples top_db sr prepad_ms postpad_ms = samples) := by
  have hsub : ∃ a m : ℕ,
      trim_silence trimOracle samples top_db sr prepad_ms postpad_ms
        = (samples.drop a).take m := by
    unfold trim_silence
    split
    · exact ⟨0, samples.length, by simp_all⟩
    · split
      · exact ⟨_, _, rfl⟩
      · exact ⟨0, samples.length, by simp⟩
  refine ⟨hsub, ?_, ?_⟩
  · obtain ⟨a, m, hm⟩ := hsub
    rw [hm]
    calc ((samples.drop a).take m).length ≤ (samples.drop a).length := by
          simp [List.length_take]
      _ ≤ samples.length := by simp
  · intro h
    subst h
    rfl

/-- Witness for C10 at concrete inputs: the sub-slice form on a
three-sample buffer, and the empty-input case with its hypothesis
discharged. -/
theorem C10_witness :
    (∃ a m : ℕ,
        trim_silence (fun _ _ => some (1, 2)) ([5, 6, 7] : List ℚ) 40 24000 10 10
          = (([5, 6, 7] : List ℚ).drop a).take m) ∧
    trim_silence (fun _ _ => some (1, 2)) ([] : List ℚ) 40 24000 10 10 = [] :=
  ⟨(C10_trim_silence_is_subslice (fun _ _ => some (1, 2)) [5, 6, 7] 40 24000 10 10).1,
   (C10_trim_silence_is_subslice (fun _ _ => some (1, 2)) [] 40 24000 10 10).2.2 rfl⟩

/-- The deterministic preview target of a kokoro preview call: the path
derived from `(engine, voice_id, language_key)` alone. -/
def kokoro_preview_target (preview_dir voice_id : String) (language : Option String) : String :=
  preview_path preview_dir "kokoro" voice_id
    (preview_language_key (some (pyOrStr language "en-us")) "en-us")

/-- Every kokoro preview call returns the deterministic target path. -/
theorem get_or_create_kokoro_preview_path (preview_dir : String) (fs : List String)
    (voice_id : String) (language : Option String) (force : Bool) :
    (get_or_create_kokoro_preview preview_dir fs voice_id language force).path
      = kokoro_preview_target preview_dir voice_id language := by
  simp only [get_or_create_kokoro_preview, kokoro_preview_target]
  split <;> rfl

/-- After any kokoro preview call the target file exists. -/
theorem get_or_create_kokoro_preview_mem (preview_dir : String) (fs : List String)
    (voice_id : String) (language : Option String) (force : Bool) :
    (get_or_create_kokoro_preview preview_dir fs voice_id language force).fs.contains
      (kokoro_preview_target preview_dir voice_id language) = true := by
  simp only [get_or_create_kokoro_preview, kokoro_preview_target]
  split
  · next hcond => exact ((Bool.and_eq_true _ _).mp hcond).1
  · simp

/-- A kokoro preview call without `force` on a filesystem that already
holds the target is a pure cache hit. -/
theorem get_or_create_kokoro_preview_hit (preview_dir : String) (fs : List String)
    (voice_id : String) (language : Option String)
    (h : fs.contains (kokoro_preview_target preview_dir voice_id language) = true) :
    get_or_create_kokoro_preview preview_dir fs voice_id language false
      = ⟨kokoro_preview_target preview_dir voice_id language, fs, false⟩ := by
  simp only [kokoro_preview_target] at h ⊢
  have h2 : preview_path preview_dir "kokoro" voice_id
      (preview_language_key (some (pyOrStr language "en-us")) "en-us") ∈ fs := by
    simpa using h
  simp [get_or_create_kokoro_preview, h2]

/-- C8: `_get_or_create_kokoro_preview` is idempotent.  After any call,
the preview file exists at the deterministic path derived from
`(engine, voice_id, language_key)`; a second call with the same
`(voice_id, language)` and without `force` returns the same path, does
not invoke synthesis, and leaves the filesystem unchanged. -/
theorem C8_preview_idempotent (preview_dir : String) (fs : List String)
    (voice_id : String) (language : Option String) (force : Bool) :
    (get_or_create_kokoro_preview preview_dir fs voice_id language force).fs.contains
        (get_or_create_kokoro_preview preview_dir fs voice_id language force).path = true ∧
    (get_or_create_kokoro_preview preview_dir
          (get_or_create_kokoro_preview preview_dir fs voice_id language force).fs
          voice_id language false).path
        = (get_or_create_kokoro_preview preview_dir fs voice_id language force).path ∧
    (get_or_create_kokoro_preview preview_dir
          (get_or_create_kokoro_preview preview_dir fs voice_id language force).fs
          voice_id language false).synthesised = false ∧
    (get_or_create_kokoro_preview preview_dir
          (get_or_create_kokoro_preview preview_dir fs voice_id language force).fs
          voice_id language false).fs
        = (get_or_create_kokoro_preview preview_dir fs voice_id language force).fs := by
  have hpath : (get_or_create_kokoro_preview preview_dir fs voice_id language force).path
      = kokoro_preview_target preview_dir voice_id language :=
    get_or_create_kokoro_preview_path preview_dir fs voice_id language force
  have hmem : (get_or_create_kokoro_preview preview_dir fs voice_id language force).fs.contains
      (kokoro_preview_target preview_dir voice_id language) = true :=
    get_or_create_kokoro_preview_mem preview_dir fs voice_id language force
  have hsecond : get_or_create_kokoro_preview preview_dir
        (get_or_create_kokoro_preview preview_dir fs voice_id language force).fs
        voice_id language false
      = ⟨kokoro_preview_target preview_dir voice_id language,
         (get_or_create_kokoro_preview preview_dir fs voice_id language force).fs, false⟩ :=
    get_or_create_kokoro_preview_hit preview_dir
      (get_or_create_kokoro_preview preview_dir fs voice_id language force).fs
      voice_id language hmem
  refine ⟨by rw [hpath]; exact hmem, ?_, ?_, ?_⟩
  · rw [hsecond, hpath]
  · rw [hsecond]
  · rw [hsecond]

/-- The segment accumulation loop of `concatenate_clips` appends
`[clip, gap]` per clip. -/
theorem foldl_clip_gap (gap : List ℚ) (cs : List (List ℚ)) :
    ∀ acc : List (List ℚ),
      cs.foldl (fun a c => a ++ [c, gap]) acc = acc ++ cs.flatMap (fun c => [c, gap]) := by
  induction cs with
  | nil => intro acc; simp
  | cons c cs ih =>
      intro acc
      simp only [List.foldl_cons, List.flatMap_cons, ih]
      simp

/-- Length of the flattened segments after dropping the trailing gap. -/
theorem dropLast_flatten_length (gap : List ℚ) :
    ∀ cs : List (List ℚ), cs ≠ [] →
      ((cs.flatMap (fun c => [c, gap])).dropLast).flatten.length
        = (cs.map List.length).sum + (cs.length - 1) * gap.length := by
  intro cs
  induction cs with
  | nil => intro h; exact absurd rfl h
  | cons c cs ih =>
      intro _
      cases cs with
      | nil => simp
      | cons d ds =>
          have hne : ((d :: ds).flatMap (fun x => [x, gap])) ≠ [] := by simp
          rw [List.flatMap_cons, List.dropLast_append_of_ne_nil _ hne, List.flatten_append]
          have hih := ih (by simp)
          simp only [List.length_append, hih, List.flatten_cons, List.flatten_nil,
            List.append_nil, List.map_cons, List.sum_cons, List.length_cons,
            Nat.add_sub_cancel, Nat.succ_mul]
          omega

/-- The segment list built from at least one clip stays non-empty after
dropping the trailing gap. -/
theorem flatMap_pair_dropLast_ne_nil (gap c : List ℚ) (cs : List (List ℚ)) :
    (((c :: cs).flatMap (fun x => [x, gap])).dropLast) ≠ [] := by
  cases h : cs.flatMap (fun x => [x, gap]) with
  | nil => simp [List.flatMap_cons, h]
  | cons y ys =>
      rw [List.flatMap_cons, h, List.dropLast_append_of_ne_nil _ (by simp)]
      simp

/-- C9: `concatenate_clips` returns the empty buffer for an empty clip
list, and for `n ≥ 1` clips returns a buffer of length
`Σ len(cᵢ) + (n - 1) * max(int(sample_rate * gap_seconds), 0)`. -/
theorem C9_concatenate_clips_length (clips : List (List ℚ)) (sample_rate : ℤ)
    (gap_seconds : ℚ) :
    (clips = [] → concatenate_clips clips sample_rate gap_seconds = []) ∧
    (clips ≠ [] →
      (concatenate_clips clips sample_rate gap_seconds).length
        = (clips.map List.length).sum
          + (clips.length - 1) * (max (pyInt ((sample_rate : ℚ) * gap_seconds)) 0).toNat) := by
  constructor
  · intro h; subst h; rfl
  · intro hne
    obtain ⟨c, cs, rfl⟩ := List.exists_cons_of_ne_nil hne
    simp only [concatenate_clips, foldl_clip_gap, List.nil_append]
    split
    · next hemp =>
        exfalso
        rw [List.isEmpty_iff] at hemp
        exact flatMap_pair_dropLast_ne_nil _ c cs hemp
    · next hemp =>
        have := dropLast_flatten_length
          (List.replicate (max (pyInt ((sample_rate : ℚ) * gap_seconds)) 0).toNat 0)
          (c :: cs) (by simp)
        simpa [List.length_replicate] using this

/-- Witness for C9 at concrete inputs, discharging the hypotheses of
both conjuncts. -/
theorem C9_witness :
    concatenate_clips ([] : List (List ℚ)) 4 (1/2) = [] ∧
    (concatenate_clips ([[1, 2], [3]] : List (List ℚ)) 4 (1/2)).length
      = (([[1, 2], [3]] : List (List ℚ)).map List.length).sum
        + (([[1, 2], [3]] : List (List ℚ)).length - 1) * (max (pyInt ((4 : ℚ) * (1/2))) 0).toNat :=
  ⟨(C9_concatenate_clips_length [] 4 (1/2)).1 rfl,
   (C9_concatenate_clips_length [[1, 2], [3]] 4 (1/2)).2 (by simp)⟩

/-- A sixty-character slug (the favorites store truncates slugs at 60
characters). -/
def sixtyA : String := "aaaaaaaaaaaaaaaaaaaaaaaaaaaaaaaaaaaaaaaaaaaaaaaaaaaaaaaaaaaa"

set_option maxRecDepth 100000 in
/-- C4: after a sequence of create and update operations the stored slugs
can collide.  `FavoritesStore.update` applies the `[:60]` truncation
*after* `_unique_slug`, so a 60-character slug that collides is suffixed
to 62 characters and then truncated back to the original colliding slug:
starting from the empty store, creating profile `A` with slug `sixtyA`
and profile `B` with slug `b`, then updating `B` with patch slug
`sixtyA`, leaves two profiles with the same slug. -/
theorem C4_update_truncation_breaks_slug_uniqueness :
    (((favorites_create [] "A" "Long label" "kokoro" "af-1" (some sixtyA) "t1").bind
        (fun s1 => favorites_create s1 "B" "Other" "kokoro" "af-2" (some "b") "t2")).bind
        (fun s2 => favorites_update s2 "B" (some sixtyA) "t3")).map
      (fun ps => decide (ps.map Profile.slug).Nodup) = some false := by
  decide

/-- C2: every `align_region` request that reaches the merge step fails
with a `NameError` at the diff computation instead of returning a
response: line 2851 reads `prev_words`, which is assigned nowhere in
`media_align_region_endpoint` (it is a local of `media_align_endpoint`,
line 2698) and, when absent from the module globals, is unbound. -/
theorem C2_align_region_diff_raises_name_error
    (globalsEnv : List (String × List Word)) (existing : List PyWord)
    (region_start region_end : ℚ) (new_words : List Word)
    (h : globalsEnv.find? (fun e => e.1 == "prev_words") = none) :
    media_align_region_finish globalsEnv existing region_start region_end new_words
      = .error "NameError: name prev_words is not defined" := by
  unfold media_align_region_finish
  rw [if_neg (by decide)]
  rw [h]
  rfl

/-- Witness for C2 at a concrete failing input: a module-global
environment without `prev_words`, a one-word transcript and a
`[10, 12.5]` region. -/
theorem C2_witness :
    media_align_region_finish [] [⟨some "hello", none, true, 1, true, 2, none, none⟩]
        10 (25/2) [⟨"new", 21/2, 11, 1⟩]
      = .error "NameError: name prev_words is not defined" :=
  C2_align_region_diff_raises_name_error [] [⟨some "hello", none, true, 1, true, 2, none, none⟩]
    10 (25/2) [⟨"new", 21/2, 11, 1⟩] rfl

/-- C6: the `align_region` merge invariant.  Every timed word of the
prior transcript whose interval does not overlap
`[region_start, region_end]` appears in the merged word list with
identical start and end times, every newly aligned word is in the merged
list, and the merged list is sorted by start time. -/
theorem C6_align_region_merge_invariant (region_start region_end : ℚ)
    (existing : List PyWord) (new_words : List Word) :
    (∀ w ∈ existing, is_timed_word w = true →
        overlaps_region region_start region_end w = false →
        ∃ w2 ∈ merge_region_words region_start region_end existing new_words,
          w2.start = pyGetStart w ∧ w2.stop = pyGetEnd w) ∧
    (∀ w ∈ new_words, w ∈ merge_region_words region_start region_end existing new_words) ∧
    (merge_region_words region_start region_end existing new_words).Pairwise
      (fun a b => a.start ≤ b.start) := by
  unfold merge_region_words
  refine ⟨?_, ?_, ?_⟩
  · intro w hw ht hov
    refine ⟨keptWord w, ?_, rfl, rfl⟩
    rw [List.mem_mergeSort, List.mem_append]
    left
    rw [List.mem_filterMap]
    exact ⟨w, hw, by simp [ht, hov]⟩
  · intro w hw
    rw [List.mem_mergeSort, List.mem_append]
    right
    exact hw
  · have hs := @List.sorted_mergeSort Word (fun a b => decide (a.start ≤ b.start))
      (fun a b c hab hbc => by
        simp only [decide_eq_true_eq] at *
        exact le_trans hab hbc)
      (fun a b => by simpa using le_total a.start b.start)
      ((existing.filterMap (fun w =>
        if is_timed_word w then
          if !overlaps_region region_start region_end w then some (keptWord w) else none
        else none)) ++ new_words)
    exact hs.imp (fun h => by simpa using h)

/-- The timed word outside the region used by the C6 witness. -/
def wOutEx : PyWord := ⟨some "hello", none, true, 1, true, 2, some (9/10), none⟩

/-- The timed word inside the region used by the C6 witness. -/
def wInEx : PyWord := ⟨some "mid", none, true, 11, true, 12, none, none⟩

/-- The newly aligned word used by the C6 witness. -/
def nwEx : Word := ⟨"new", 21/2, 11, 1⟩

/-- Witness for C6 at a concrete input: region `[10, 12.5]`, one timed
word outside, one inside, one new word. -/
theorem C6_witness :
    (∃ w2 ∈ merge_region_words 10 (25/2) [wOutEx, wInEx] [nwEx],
        w2.start = 1 ∧ w2.stop = 2) ∧
    nwEx ∈ merge_region_words 10 (25/2) [wOutEx, wInEx] [nwEx] ∧
    (merge_region_words 10 (25/2) [wOutEx, wInEx] [nwEx]).Pairwise
      (fun a b => a.start ≤ b.start) := by
  have h := C6_align_region_merge_invariant 10 (25/2) [wOutEx, wInEx] [nwEx]
  refine ⟨?_, h.2.1 nwEx (by simp), h.2.2⟩
  have h2 := h.1 wOutEx (by simp) (by decide) (by decide)
  simpa [pyGetStart, pyGetEnd, wOutEx] using h2

/-- C1 counterexample: the prepare-step resolver accepts an existing
absolute path that lies inside neither the XTTS voices directory nor a
job directory, instead of rejecting it with status 400. -/
theorem C1_counterexample_resolver_accepts_outside_path :
    resolve_xtts_voice_path [] (fun p => p == "/tmp/evil.wav") "/home/user" "/tmp/evil.wav"
        = .ok ("evil", "/tmp/evil.wav") ∧
    path_is_inside "/tmp/evil.wav" "/data/xtts/voices" = false ∧
    path_is_inside "/tmp/evil.wav" "/data/out/media_edits/job1" = false :=
  ⟨rfl, by decide, by decide⟩

/-- C1 (amended): the engine prepare step (`_resolve_xtts_voice_path`)
accepts *any* existing filesystem path, wherever it lies; the containment
restriction — inside the current job folder or the XTTS voices directory,
otherwise status 400 — is enforced only by the explicit-voice validation
of `media_replace_preview_endpoint`. -/
theorem C1_amended_path_scope :
    (∀ (voice_map : List (String × String)) (fs : String → Bool) (home identifier : String),
        assocFind voice_map (strTrim (strLower identifier)) = none →
        assocFind voice_map (slugify_voice_id identifier) = none →
        fs (expanduser home identifier) = true →
        resolve_xtts_voice_path voice_map fs home identifier
          = .ok (slugify_voice_id (pathStem (expanduser home identifier)),
                 expanduser home identifier)) ∧
    (∀ (job_dir voice_dir : String) (fs : String → Bool) (home ev : String),
        looks_like_path home ev = true →
        path_is_inside (expanduser home ev) job_dir = false →
        path_is_inside (expanduser home ev) voice_dir = false →
        media_replace_voice_check job_dir voice_dir fs home ev = .error 400) := by
  constructor
  · intro vm fs home ident h1 h2 h3
    simp [resolve_xtts_voice_path, h1, h2, h3]
  · intro jd vd fs home ev h1 h2 h3
    simp [media_replace_voice_check, h1, h2, h3]

/-- Witness for C1 at concrete inputs: the resolver accepts an existing
reference, and the endpoint validation rejects a path outside both
directories. -/
theorem C1_witness :
    resolve_xtts_voice_path [] (fun p => p == "/srv/clips/ref.wav") "/home/user" "/srv/clips/ref.wav"
        = .ok ("ref", "/srv/clips/ref.wav") ∧
    media_replace_voice_check "/data/out/media_edits/job1" "/data/xtts/voices"
        (fun p => p == "/srv/clips/ref.wav") "/home/user" "/srv/clips/ref.wav" = .error 400 := by
  constructor
  · have h := C1_amended_path_scope.1 [] (fun p => p == "/srv/clips/ref.wav")
      "/home/user" "/srv/clips/ref.wav" rfl rfl (by decide)
    exact h.trans rfl
  · exact C1_amended_path_scope.2 "/data/out/media_edits/job1" "/data/xtts/voices"
      (fun p => p == "/srv/clips/ref.wav") "/home/user" "/srv/clips/ref.wav"
      (by decide) (by decide) (by decide)

/-! ## Peak and tanh facts used for the limiter claims -/

/-- The peak of a buffer is non-negative. -/
theorem listPeak_nonneg (x : List ℝ) : 0 ≤ listPeak x := by
  induction x with
  | nil => simp [listPeak]
  | cons a l ih =>
      have : listPeak (a :: l) = max |a| (listPeak l) := rfl
      rw [this]
      exact le_trans ih (le_max_right _ _)

/-- Every sample is bounded by the peak. -/
theorem abs_le_listPeak {x : List ℝ} {v : ℝ} (hv : v ∈ x) : |v| ≤ listPeak x := by
  induction x with
  | nil => cases hv
  | cons a l ih =>
      have hpk : listPeak (a :: l) = max |a| (listPeak l) := rfl
      rw [hpk]
      rcases List.mem_cons.mp hv with h | h
      · subst h; exact le_max_left _ _
      · exact le_trans (ih h) (le_max_right _ _)

/-- A uniform sample bound bounds the peak. -/
theorem listPeak_le {x : List ℝ} {c : ℝ} (h0 : 0 ≤ c) (h : ∀ v ∈ x, |v| ≤ c) :
    listPeak x ≤ c := by
  induction x with
  | nil => simpa [listPeak] using h0
  | cons a l ih =>
      have hpk : listPeak (a :: l) = max |a| (listPeak l) := rfl
      rw [hpk]
      exact max_le (h a (List.mem_cons_self a l))
        (ih (fun v hv => h v (List.mem_cons_of_mem a hv)))

/-- The peak of a singleton of a non-negative value. -/
theorem listPeak_singleton {a : ℝ} (ha : 0 ≤ a) : listPeak [a] = a := by
  have : listPeak [a] = max |a| 0 := rfl
  rw [this, abs_of_nonneg ha]
  exact max_eq_left ha

/-- When the peak is within the ceiling, `_soft_limit` passes the buffer
through unchanged (the empty buffer always passes through). -/
theorem soft_limit_id {x : List ℝ} {c d : ℝ} (h : listPeak x ≤ c) :
    soft_limit x c d = x := by
  unfold soft_limit
  by_cases he : x.isEmpty
  · rw [if_pos he]
  · rw [if_neg he, if_pos h]

/-- When the pre-limit peak is within the ceiling, the whole limiting
stage is the identity. -/
theorem limit_stage_id {x : List ℝ} (h : listPeak x ≤ 49 / 50) :
    limit_stage x = x := by
  simp only [limit_stage]
  rw [soft_limit_id h, if_neg (not_lt.mpr (le_trans h (by norm_num)))]

/-- `tanh` through the exponential: `tanh t = (e^{2t} - 1) / (e^{2t} + 1)`. -/
theorem tanh_eq_exp (t : ℝ) :
    Real.tanh t = (Real.exp (2 * t) - 1) / (Real.exp (2 * t) + 1) := by
  rw [Real.tanh_eq_sinh_div_cosh, Real.sinh_eq, Real.cosh_eq, Real.exp_neg]
  have h1 : Real.exp t ≠ 0 := (Real.exp_pos t).ne'
  have h3 : Real.exp (2 * t) = Real.exp t * Real.exp t := by
    rw [two_mul, Real.exp_add]
  have h4 : (0 : ℝ) < Real.exp (2 * t) + 1 := by positivity
  rw [h3]
  field_simp

/-- `tanh` is strictly monotone. -/
theorem tanh_strict_mono {b c : ℝ} (h : b < c) : Real.tanh b < Real.tanh c := by
  rw [tanh_eq_exp, tanh_eq_exp]
  have hu : (0 : ℝ) < Real.exp (2 * b) := Real.exp_pos _
  have hv : (0 : ℝ) < Real.exp (2 * c) := Real.exp_pos _
  have huv : Real.exp (2 * b) < Real.exp (2 * c) := Real.exp_lt_exp.mpr (by linarith)
  rw [div_lt_div_iff₀ (by linarith) (by linarith)]
  nlinarith

/-- `tanh` is positive on positive inputs. -/
theorem tanh_pos_of_pos {t : ℝ} (h : 0 < t) : 0 < Real.tanh t := by
  rw [tanh_eq_exp]
  have h1 : (1 : ℝ) < Real.exp (2 * t) := by
    calc (1 : ℝ) = Real.exp 0 := Real.exp_zero.symm
      _ < Real.exp (2 * t) := Real.exp_lt_exp.mpr (by linarith)
  exact div_pos (by linarith) (by linarith)

/-- Numeric bound `e⁴ ≥ 50`. -/
theorem exp_four_ge : (50 : ℝ) ≤ Real.exp 4 := by
  have h : Real.exp 1 ^ 4 = Real.exp 4 := by
    exact_mod_cast Real.exp_one_pow 4
  have h2 : (2.7182818283 : ℝ) ^ 4 ≤ Real.exp 1 ^ 4 :=
    pow_le_pow_left₀ (by norm_num) (le_of_lt Real.exp_one_gt_d9) 4
  calc (50 : ℝ) ≤ (2.7182818283 : ℝ) ^ 4 := by norm_num
    _ ≤ Real.exp 1 ^ 4 := h2
    _ = Real.exp 4 := h

/-- Numeric bound `e⁴ ≤ 55`. -/
theorem exp_four_le : Real.exp 4 ≤ 55 := by
  have h : Real.exp 1 ^ 4 = Real.exp 4 := by
    exact_mod_cast Real.exp_one_pow 4
  have h2 : Real.exp 1 ^ 4 ≤ (2.7182818286 : ℝ) ^ 4 :=
    pow_le_pow_left₀ (le_of_lt (Real.exp_pos 1)) (le_of_lt Real.exp_one_lt_d9) 4
  calc Real.exp 4 = Real.exp 1 ^ 4 := h.symm
    _ ≤ (2.7182818286 : ℝ) ^ 4 := h2
    _ ≤ 55 := by norm_num

/-- Numeric bound `e⁹ ≤ 8281 = 91²`. -/
theorem exp_nine_le : Real.exp 9 ≤ 8281 := by
  have h : Real.exp 1 ^ 9 = Real.exp 9 := by
    exact_mod_cast Real.exp_one_pow 9
  have h2 : Real.exp 1 ^ 9 ≤ (2.7182818286 : ℝ) ^ 9 :=
    pow_le_pow_left₀ (le_of_lt (Real.exp_pos 1)) (le_of_lt Real.exp_one_lt_d9) 9
  calc Real.exp 9 = Real.exp 1 ^ 9 := h.symm
    _ ≤ (2.7182818286 : ℝ) ^ 9 := h2
    _ ≤ 8281 := by norm_num

/-- Numeric bound `e^{9/2} ≤ 91`. -/
theorem exp_four_half_le : Real.exp (9 / 2) ≤ 91 := by
  have hsq : Real.exp (9 / 2) * Real.exp (9 / 2) = Real.exp 9 := by
    rw [← Real.exp_add]; norm_num
  nlinarith [Real.exp_pos (9 / 2), exp_nine_le]

/-- Numeric bound `e¹² ≥ 4096 = 2¹²`. -/
theorem exp_twelve_ge : (4096 : ℝ) ≤ Real.exp 12 := by
  have h : Real.exp 1 ^ 12 = Real.exp 12 := by
    exact_mod_cast Real.exp_one_pow 12
  have h2 : (2 : ℝ) ^ 12 ≤ Real.exp 1 ^ 12 :=
    pow_le_pow_left₀ (by norm_num) (by nlinarith [Real.exp_one_gt_d9]) 12
  calc (4096 : ℝ) = (2 : ℝ) ^ 12 := by norm_num
    _ ≤ Real.exp 1 ^ 12 := h2
    _ = Real.exp 12 := h

/-- C5 (amended): the limiting stage always returns a buffer of peak at
most `1.0`, and whenever the soft-limiter output still peaks above `1.0`
the final safety rescales the buffer to peak at most `0.98`.  (The
original claim — peak ≤ `0.98` whenever the input peak exceeded the
ceiling — fails; see the counterexample.) -/
theorem C5_limit_stage_peaks (x : List ℝ) :
    listPeak (limit_stage x) ≤ 1 ∧
    (1 < listPeak (soft_limit x (49 / 50) 2) → listPeak (limit_stage x) ≤ 49 / 50) := by
  unfold limit_stage
  by_cases h : 1 < listPeak (soft_limit x (49 / 50) 2)
  · rw [if_pos h]
    have hp : (0 : ℝ) < listPeak (soft_limit x (49 / 50) 2) := lt_trans one_pos h
    have hle : listPeak
        ((soft_limit x (49 / 50) 2).map
          (fun v => v / listPeak (soft_limit x (49 / 50) 2) * (49 / 50))) ≤ 49 / 50 := by
      apply listPeak_le (by norm_num)
      intro v hv
      rw [List.mem_map] at hv
      obtain ⟨w, hw, rfl⟩ := hv
      have hwle : |w| ≤ listPeak (soft_limit x (49 / 50) 2) := abs_le_listPeak hw
      rw [abs_mul, abs_div, abs_of_pos hp, abs_of_nonneg (by norm_num : (0:ℝ) ≤ 49 / 50)]
      calc |w| / listPeak (soft_limit x (49 / 50) 2) * (49 / 50)
          ≤ 1 * (49 / 50) := by
            apply mul_le_mul_of_nonneg_right _ (by norm_num)
            rw [div_le_one hp]
            exact hwle
        _ = 49 / 50 := one_mul _
    exact ⟨le_trans hle (by norm_num), fun _ => hle⟩
  · rw [if_neg h]
    exact ⟨le_of_not_lt h, fun h2 => absurd h2 h⟩

/-- C5 counterexample: the input `[0.985]` has peak above the `0.98`
ceiling, the soft limiter engages, yet the returned buffer still peaks
above `0.98` (its peak lands in `(0.98, 1.0]`, so the final safety does
not rescale).  This refutes the second half of the claim. -/
theorem C5_counterexample_peak_above_ceiling :
    (49 / 50 : ℝ) < 197 / 200 ∧
    (49 / 50 : ℝ) < listPeak (limit_stage [197 / 200]) := by
  have hpeak : listPeak [(197 / 200 : ℝ)] = 197 / 200 := listPeak_singleton (by norm_num)
  -- the soft limiter engages and maps the single sample
  have hM : soft_limit [(197 / 200 : ℝ)] (49 / 50) 2
      = [Real.tanh ((197 / 200) / (49 / 50) * 2) / Real.tanh 2 * (49 / 50)] := by
    unfold soft_limit
    rw [if_neg (by simp), if_neg (by rw [hpeak]; norm_num)]
    rfl
  have harg : ((197 : ℝ) / 200) / (49 / 50) * 2 = 197 / 98 := by norm_num
  rw [harg] at hM
  set y := Real.tanh (197 / 98) / Real.tanh 2 * (49 / 50) with hy
  have htanh2 : (0 : ℝ) < Real.tanh 2 := tanh_pos_of_pos (by norm_num)
  have hmono : Real.tanh 2 < Real.tanh (197 / 98) := tanh_strict_mono (by norm_num)
  have hygt : (49 / 50 : ℝ) < y := by
    have h1 : (1 : ℝ) < Real.tanh (197 / 98) / Real.tanh 2 := (one_lt_div htanh2).mpr hmono
    nlinarith
  have hyle : y ≤ 1 := by
    -- `y ≤ 1` reduces to `0.98 * tanh(197/98) ≤ tanh 2`, settled through
    -- the exponential form with `50 ≤ e⁴` and `e^{197/49} ≤ e^{9/2} ≤ 91`
    have hu : (0 : ℝ) < Real.exp (2 * (197 / 98)) := Real.exp_pos _
    have hv : (0 : ℝ) < Real.exp (2 * 2) := Real.exp_pos _
    have hv50 : (50 : ℝ) ≤ Real.exp (2 * 2) := by
      calc (50 : ℝ) ≤ Real.exp 4 := exp_four_ge
        _ = Real.exp (2 * 2) := by norm_num
    have hu91 : Real.exp (2 * (197 / 98)) ≤ 91 := by
      calc Real.exp (2 * (197 / 98)) ≤ Real.exp (9 / 2) :=
            Real.exp_le_exp.mpr (by norm_num)
        _ ≤ 91 := exp_four_half_le
    have hkey : Real.tanh (197 / 98) * (49 / 50) ≤ Real.tanh 2 := by
      rw [tanh_eq_exp, tanh_eq_exp]
      rw [div_mul_eq_mul_div, div_le_div_iff₀ (by linarith) (by linarith)]
      nlinarith [mul_le_mul_of_nonneg_left hv50 (le_of_lt hu)]
    calc y = Real.tanh (197 / 98) * (49 / 50) / Real.tanh 2 := by
          rw [hy]; ring
      _ ≤ Real.tanh 2 / Real.tanh 2 := by gcongr
      _ = 1 := div_self (ne_of_gt htanh2)
  have hypos : (0 : ℝ) < y := lt_trans (by norm_num) hygt
  have hpeakM : listPeak [y] = y := listPeak_singleton (le_of_lt hypos)
  have hfinal : limit_stage [(197 / 200 : ℝ)] = [y] := by
    simp only [limit_stage]
    rw [hM, hpeakM, if_neg (not_lt.mpr hyle)]
  rw [hfinal, hpeakM]
  exact ⟨by norm_num, hygt⟩

/-- Witness for C5 at a concrete input: on `[3]` the soft-limiter output
peaks above `1.0`, and the limiting stage then returns peak at most
`0.98` (and at most `1.0`). -/
theorem C5_witness :
    1 < listPeak (soft_limit [(3 : ℝ)] (49 / 50) 2) ∧
    listPeak (limit_stage [(3 : ℝ)]) ≤ 1 ∧
    listPeak (limit_stage [(3 : ℝ)]) ≤ 49 / 50 := by
  have hpeak : listPeak [(3 : ℝ)] = 3 := listPeak_singleton (by norm_num)
  have hM : soft_limit [(3 : ℝ)] (49 / 50) 2
      = [Real.tanh (3 / (49 / 50) * 2) / Real.tanh 2 * (49 / 50)] := by
    unfold soft_limit
    rw [if_neg (by simp), if_neg (by rw [hpeak]; norm_num)]
    rfl
  have harg : ((3 : ℝ) / (49 / 50) * 2) = 300 / 49 := by norm_num
  rw [harg] at hM
  set y := Real.tanh (300 / 49) / Real.tanh 2 * (49 / 50) with hy
  have htanh2 : (0 : ℝ) < Real.tanh 2 := tanh_pos_of_pos (by norm_num)
  have h1 : 1 < y := by
    -- `1 < y` reduces to `50 · tanh 2 < 49 · tanh(300/49)`, settled through
    -- the exponential form with `e⁴ ≤ 55` and `e^{600/49} ≥ e¹² ≥ 4096`
    have hw : (0 : ℝ) < Real.exp (2 * (300 / 49)) := Real.exp_pos _
    have hv : (0 : ℝ) < Real.exp (2 * 2) := Real.exp_pos _
    have hv55 : Real.exp (2 * 2) ≤ 55 := by
      calc Real.exp (2 * 2) = Real.exp 4 := by norm_num
        _ ≤ 55 := exp_four_le
    have hw4096 : (4096 : ℝ) ≤ Real.exp (2 * (300 / 49)) := by
      calc (4096 : ℝ) ≤ Real.exp 12 := exp_twelve_ge
        _ ≤ Real.exp (2 * (300 / 49)) := Real.exp_le_exp.mpr (by norm_num)
    have hkey : Real.tanh 2 < Real.tanh (300 / 49) * (49 / 50) := by
      rw [tanh_eq_exp, tanh_eq_exp]
      rw [div_mul_eq_mul_div, div_lt_div_iff₀ (by linarith) (by linarith)]
      nlinarith [mul_le_mul_of_nonneg_right hv55
        (by linarith : (0 : ℝ) ≤ Real.exp (2 * (300 / 49)) + 99)]
    calc (1 : ℝ) = Real.tanh 2 / Real.tanh 2 := (div_self (ne_of_gt htanh2)).symm
      _ < Real.tanh (300 / 49) * (49 / 50) / Real.tanh 2 :=
          (div_lt_div_iff_of_pos_right htanh2).mpr hkey
      _ = y := by rw [hy]; ring
  have hypos : (0 : ℝ) < y := lt_trans one_pos h1
  have hpk : listPeak (soft_limit [(3 : ℝ)] (49 / 50) 2) = y := by
    rw [hM]
    exact listPeak_singleton (le_of_lt hypos)
  exact ⟨by rw [hpk]; exact h1, (C5_limit_stage_peaks [3]).1,
    (C5_limit_stage_peaks [3]).2 (by rw [hpk]; exact h1)⟩

/-! ## Write confinement of the crossfade splice (C3) -/

/-- A fold whose every step preserves position `j` preserves position
`j`. -/
theorem foldl_getElem?_of_steps {step : List ℝ → ℕ → List ℝ} (l : List ℕ) (j : ℕ)
    (h : ∀ acc t, t ∈ l → (step acc t)[j]? = acc[j]?) :
    ∀ init : List ℝ, (l.foldl step init)[j]? = init[j]? := by
  induction l with
  | nil => intro init; rfl
  | cons a l ih =>
      intro init
      rw [List.foldl_cons,
        ih (fun acc t ht => h acc t (List.mem_cons_of_mem a ht)) (step init a)]
      exact h init a (List.mem_cons_self a l)

/-- The crossfade length never exceeds the region length. -/
theorem spliceFade_le (sr : ℤ) (fade_ms : ℚ) {tl : ℕ} (h : 1 ≤ tl) :
    spliceFade sr fade_ms tl ≤ tl := by
  unfold spliceFade
  generalize pyInt (fade_ms / 1000 * (sr : ℚ)) = P
  omega

/-- The crossfade length is at least one sample. -/
theorem one_le_spliceFade (sr : ℤ) (fade_ms : ℚ) (tl : ℕ) :
    1 ≤ spliceFade sr fade_ms tl := by
  unfold spliceFade
  generalize pyInt (fade_ms / 1000 * (sr : ℚ)) = P
  omega

/-- All crossfade writes land inside `[i0, i1)`: every sample of the
pre-limit spliced buffer at a position outside `[i0, i1)` is the source
sample. -/
theorem splice_pre_limit_getElem?_outside (stretch : List ℝ → List ℝ)
    (source rep : List ℝ) (sr : ℤ) (i0 i1 : ℕ) (fade_ms : ℚ)
    (duck_gain : Option ℝ) (h01 : i0 < i1) (j : ℕ) (hjout : j < i0 ∨ i1 ≤ j) :
    (splice_pre_limit stretch source rep sr i0 i1 fade_ms duck_gain)[j]? = source[j]? := by
  have htl : max (i1 - i0) 1 = i1 - i0 := max_eq_left (by omega)
  have hfade_le : spliceFade sr fade_ms (max (i1 - i0) 1) ≤ i1 - i0 := by
    rw [htl]; exact spliceFade_le sr fade_ms (by omega)
  have hfade_pos := one_le_spliceFade sr fade_ms (max (i1 - i0) 1)
  simp only [splice_pre_limit]
  rw [foldl_getElem?_of_steps _ j ?hend]
  case hend =>
    intro acc t ht
    rw [List.mem_range] at ht
    exact List.getElem?_set_ne (by omega)
  split
  · rw [foldl_getElem?_of_steps _ j ?hmid]
    case hmid =>
      intro acc t ht
      rw [List.mem_range] at ht
      exact List.getElem?_set_ne (by omega)
    rw [foldl_getElem?_of_steps _ j ?hbeg]
    case hbeg =>
      intro acc t ht
      rw [List.mem_range] at ht
      exact List.getElem?_set_ne (by omega)
  · rw [foldl_getElem?_of_steps _ j ?hbeg2]
    case hbeg2 =>
      intro acc t ht
      rw [List.mem_range] at ht
      exact List.getElem?_set_ne (by omega)

/-- C3 (amended): when the spliced buffer's peak before the limiting
stage stays within the `0.98` ceiling (so the soft limiter and final
safety pass the buffer through unchanged) and the region is valid
(`i0 < i1 ≤ len(source)`), `_apply_replace_with_crossfade` preserves
every sample at an index outside `[i0 - fade, i1 + fade]` bit-exactly.
(Without the peak proviso the claim fails: the limiter transforms the
whole buffer; see the counterexample.) -/
theorem C3_amended_splice_preserves_outside (stretch : List ℝ → List ℝ)
    (source rep : List ℝ) (sr : ℤ) (i0 i1 : ℕ) (fade_ms : ℚ)
    (duck_gain : Option ℝ) (h01 : i0 < i1) (h1len : i1 ≤ source.length)
    (hpeak : listPeak (splice_pre_limit stretch source rep sr i0 i1 fade_ms duck_gain) ≤ 49 / 50)
    (j : ℕ)
    (hj : j + spliceFade sr fade_ms (max (i1 - i0) 1) < i0
        ∨ i1 + spliceFade sr fade_ms (max (i1 - i0) 1) < j) :
    (apply_replace_with_crossfade stretch source rep sr i0 i1 fade_ms duck_gain).getD j 0
      = source.getD j 0 := by
  unfold apply_replace_with_crossfade
  rw [limit_stage_id hpeak, List.getD_eq_getElem?_getD, List.getD_eq_getElem?_getD,
    splice_pre_limit_getElem?_outside stretch source rep sr i0 i1 fade_ms duck_gain h01 j
      (by omega)]

/-- The crossfade length of the `[2, 4)` region at 24 kHz and the default
30 ms fade is one sample. -/
theorem spliceFade_region_two : spliceFade 24000 30 (max (4 - 2) 1) = 1 := by
  norm_num [spliceFade, pyInt]

/-- C3 counterexample: splicing `[0, 0]` into region `[2, 4)` of the
six-sample source `[3/2, 0, 0, 0, 0, 0]` changes the sample at index `0`,
even though `0` lies outside `[i0 - fade, i1 + fade] = [1, 5]`: the
pre-limit buffer keeps `3/2` at index `0`, its peak `≥ 3/2` exceeds the
`0.98` ceiling, and the tanh soft limiter (or, if its output still peaks
above `1.0`, the final safety rescale) maps every sample — including
index `0` — to a value of magnitude at most `1`. -/
theorem C3_counterexample_limiter_rewrites_outside :
    0 + spliceFade 24000 30 (max (4 - 2) 1) < 2 ∧
    (apply_replace_with_crossfade id [3 / 2, 0, 0, 0, 0, 0] [0, 0] 24000 2 4 30 none).getD 0 0
      ≠ ([3 / 2, 0, 0, 0, 0, 0] : List ℝ).getD 0 0 := by
  refine ⟨by rw [spliceFade_region_two]; norm_num, ?_⟩
  have hpre : (splice_pre_limit id [3 / 2, 0, 0, 0, 0, 0] [0, 0] 24000 2 4 30 none)[0]?
      = some (3 / 2) :=
    (splice_pre_limit_getElem?_outside id [3 / 2, 0, 0, 0, 0, 0] [0, 0] 24000 2 4 30 none
      (by norm_num) 0 (Or.inl (by norm_num))).trans rfl
  set L := splice_pre_limit id [3 / 2, 0, 0, 0, 0, 0] [0, 0] 24000 2 4 30 none with hL
  have hmem : (3 / 2 : ℝ) ∈ L := List.getElem?_mem hpre
  have hpeakL : (3 / 2 : ℝ) ≤ listPeak L := by
    have := abs_le_listPeak hmem
    rwa [abs_of_nonneg (by norm_num)] at this
  have hne : L ≠ [] := by
    intro h
    rw [h] at hpre
    exact Option.noConfusion hpre
  -- the soft limiter engages
  have hsl : soft_limit L (49 / 50) 2
      = L.map (fun v => Real.tanh (v / (49 / 50) * 2) / Real.tanh 2 * (49 / 50)) := by
    unfold soft_limit
    rw [if_neg (by simpa [List.isEmpty_iff] using hne), if_neg (by intro h; linarith)]
  set f := fun v : ℝ => Real.tanh (v / (49 / 50) * 2) / Real.tanh 2 * (49 / 50) with hf
  have hM0 : (L.map f)[0]? = some (f (3 / 2)) := by
    rw [List.getElem?_map, hpre]
    rfl
  have hfmem : f (3 / 2) ∈ L.map f := List.getElem?_mem hM0
  have hfbound : |f (3 / 2)| ≤ listPeak (L.map f) := abs_le_listPeak hfmem
  -- a value of magnitude at most 1 cannot be the source sample 3/2
  have hout : ∀ z : ℝ, |z| ≤ 1 → z ≠ 3 / 2 := by
    intro z hzle heq
    rw [heq, abs_of_nonneg (by norm_num)] at hzle
    linarith
  show (limit_stage L).getD 0 0 ≠ ([3 / 2, 0, 0, 0, 0, 0] : List ℝ).getD 0 0
  have hsrc : ([3 / 2, 0, 0, 0, 0, 0] : List ℝ).getD 0 0 = 3 / 2 := rfl
  rw [hsrc]
  simp only [limit_stage]
  rw [hsl]
  by_cases hpk : 1 < listPeak (L.map f)
  · rw [if_pos hpk]
    have hp : (0 : ℝ) < listPeak (L.map f) := lt_trans one_pos hpk
    rw [List.getD_eq_getElem?_getD, List.getElem?_map, hM0]
    refine hout _ ?_
    rw [Option.map_some', Option.getD_some]
    rw [abs_mul, abs_div, abs_of_pos hp, abs_of_nonneg (by norm_num : (0:ℝ) ≤ 49 / 50)]
    calc |f (3 / 2)| / listPeak (L.map f) * (49 / 50)
        ≤ 1 * (49 / 50) := by
          apply mul_le_mul_of_nonneg_right _ (by norm_num)
          rw [div_le_one hp]
          exact hfbound
      _ ≤ 1 := by norm_num
  · rw [if_neg hpk]
    rw [List.getD_eq_getElem?_getD, hM0]
    refine hout _ ?_
    rw [Option.getD_some]
    exact le_trans hfbound (le_of_not_lt hpk)

/-- Splicing `[0, 0]` into region `[2, 4)` of the all-zero six-sample
source leaves the all-zero buffer (used to discharge the peak proviso of
the C3 witness). -/
theorem splice_pre_limit_zero :
    splice_pre_limit id ([0, 0, 0, 0, 0, 0] : List ℝ) [0, 0] 24000 2 4 30 none
      = [0, 0, 0, 0, 0, 0] := by
  simp only [splice_pre_limit, spliceFade, pyInt]
  norm_num
  have hr : List.range 1 = [0] := rfl
  rw [hr]
  simp [List.set]

/-- Witness for C3 at a concrete input (discharging the region and peak
hypotheses): splicing into the all-zero source keeps the sample at index
`0`. -/
theorem C3_witness :
    (apply_replace_with_crossfade id ([0, 0, 0, 0, 0, 0] : List ℝ) [0, 0]
        24000 2 4 30 none).getD 0 0
      = ([0, 0, 0, 0, 0, 0] : List ℝ).getD 0 0 :=
  C3_amended_splice_preserves_outside id [0, 0, 0, 0, 0, 0] [0, 0] 24000 2 4 30 none
    (by norm_num) (by simp)
    (by rw [splice_pre_limit_zero]; norm_num [listPeak])
    0 (Or.inl (by rw [spliceFade_region_two]; norm_num))

end TtsHub
